import Mathlib

/-!
Verification development for the `findimg` image search tool
(`src/main.rs`, `src/img_scrape/google_photos.rs`).

The embedding models paths, queries and messages as lists of characters
(`Str`), feature vectors as an abstract type `Emb` supplied together with the
model functions (`embed_text`, `embed_image`, `embed_compare`), and similarity
scores as rationals.  Fallible Rust functions returning `Result` become
`Except`; a Rust panic (`unwrap` / `expect` on an error) is recorded
explicitly in the output of the modelled operation.
-/

namespace Findimg

/-- Strings of the Rust source, modelled as lists of characters. -/
abbrev Str := List Char

/-- Mirror of Rust `str::split("-")` (`main.rs` line 635): splits at every
occurrence of the dash, keeping empty substrings, so a string with `k` dashes
yields `k + 1` parts. -/
def splitDash : Str → List Str
  | [] => [[]]
  | c :: rest =>
    if c = '-' then [] :: splitDash rest
    else
      match splitDash rest with
      | r :: rs => (c :: r) :: rs
      | [] => [[c]]

/-- The embedding-model boundary consumed by the app (`cliprs::ClipModel`):
`embed_text` and `embed_image` may fail with an error message, and
`embed_compare` scores two feature vectors.  Scores are modelled as exact
rationals. -/
structure ClipModel (Emb : Type) where
  embed_text : Str → Except Str Emb
  embed_image : Str → Except Str Emb
  embed_compare : Emb → Emb → ℚ

/-- The four search modes of `ui/list.rs` (`SearchEnum`). -/
inductive SearchEnum
  | Search
  | NegativePrompt
  | Ranking
  | Image2Image
deriving DecidableEq

/-- Observable outcome of one call to `App::search` (`main.rs` lines
541-728).  `result` is `some ranking` when the function returns
`Some(results)` (the full ranked list of `(path, score)` pairs; the decode
and truncation step at lines 705-723 preserves this order), and `none` when
it returns `None`.  `kill_sent` records whether the one-shot spinner kill
signal was sent before returning; `notifications` the error toasts added;
`panicked` whether the call panics (an `unwrap` on an `Err`) instead of
returning, in which case the kill sender is dropped unfired. -/
structure SearchOut where
  result : Option (List (Str × ℚ))
  kill_sent : Bool
  notifications : List Str
  panicked : Bool
deriving DecidableEq

instance : DecidableRel (fun (a b : Str × ℚ) => a.2 ≥ b.2) :=
  fun a b => inferInstanceAs (Decidable (b.2 ≤ a.2))

instance : DecidableRel (fun (a b : Str × ℚ) => a.2 ≤ b.2) :=
  fun a b => inferInstanceAs (Decidable (a.2 ≤ b.2))

/-- Descending comparator used by `embed_rank.sort_by(|a, b| b.1.partial_cmp(&a.1))`:
`a` may precede `b` exactly when `a`'s score is at least `b`'s.  Rust's
`sort_by` is a stable sort, modelled by `List.insertionSort` (also stable). -/
def rankDescending (l : List (Str × ℚ)) : List (Str × ℚ) :=
  l.insertionSort fun a b => a.2 ≥ b.2

/-- Ascending comparator used in Negative Prompt mode
(`a.1.partial_cmp(&b.1)`, lines 623-626), stable. -/
def rankAscending (l : List (Str × ℚ)) : List (Str × ℚ) :=
  l.insertionSort fun a b => a.2 ≤ b.2

/-- Mirror of `App::search` (`main.rs` lines 541-728).  `mode` is the checked
entry of the mode-selector list (`none` when no entry is checked);
`images_embedding` is the in-memory store, an association list with the
iteration order of the `HashMap`.  The spinner thread itself is modelled
separately (`spinner_total_from`); here only the sending of the kill signal
on each exit path is recorded. -/
def search {Emb : Type} [Inhabited Emb] (model : ClipModel Emb)
    (mode : Option SearchEnum) (query : Str)
    (images_embedding : List (Str × Emb)) : SearchOut :=
  match mode with
  | some .Search =>
    match model.embed_text query with
    | .error e => ⟨none, true, [e], false⟩
    | .ok text_embedding =>
      let embed_rank := images_embedding.map fun kv =>
        (kv.1, model.embed_compare text_embedding kv.2)
      ⟨some (rankDescending embed_rank), true, [], false⟩
  | some .NegativePrompt =>
    match model.embed_text query with
    | .error e => ⟨none, true, [e], false⟩
    | .ok text_embedding =>
      let embed_rank := images_embedding.map fun kv =>
        (kv.1, model.embed_compare text_embedding kv.2)
      ⟨some (rankAscending embed_rank), true, [], false⟩
  | some .Ranking =>
    let search_split := splitDash query
    if search_split.length ≠ 2 then ⟨none, true, [], false⟩
    else
      match model.embed_text (search_split.getD 0 []),
            model.embed_text (search_split.getD 1 []) with
      | .error _, .error _ => ⟨none, true, ["Failed to embed text".toList], false⟩
      | .error _, .ok _ => ⟨none, false, [], true⟩
      | .ok _, .error _ => ⟨none, false, [], true⟩
      | .ok positive_embedding, .ok negative_embedding =>
        let embed_rank := images_embedding.map fun kv =>
          (kv.1, model.embed_compare positive_embedding kv.2)
        let embed_rank2 := embed_rank.map fun e =>
          (e.1, e.2 - model.embed_compare negative_embedding
            ((images_embedding.lookup e.1).getD default))
        ⟨some (rankDescending embed_rank2), true, [], false⟩
  | some .Image2Image =>
    match model.embed_image query with
    | .error e => ⟨none, true, [e], false⟩
    | .ok real_image_embedding =>
      let embed_rank := images_embedding.map fun kv =>
        (kv.1, model.embed_compare real_image_embedding kv.2)
      ⟨some (rankDescending embed_rank), true, [], false⟩
  | none => ⟨some [], true, [], false⟩

/-- Mirror of the caller (`App::handle_events`, lines 450-454): on Enter the
prior `search_results` are replaced only when `search` returns `Some`. -/
def handle_search_enter (search_results : List (Str × ℚ)) (out : SearchOut) :
    List (Str × ℚ) :=
  match out.result with
  | some results => results
  | none => search_results

/-- The extension allow-list (`main.rs` line 37).  The seventh entry is the
literal string `" gif"` with a leading space, exactly as in the source. -/
def SUPPORTED_IMAGE_FORMATS : List Str :=
  ["jpg".toList, "jpeg".toList, "png".toList, "tga".toList, "bmp".toList,
   "psd".toList, " gif".toList, "hdr".toList, "pic".toList, "ppm".toList]

/-- Mirror of the directory-scan filter (`main.rs` lines 783-788): a path is
admitted when it `ends_with` one of the allow-list entries, with no dot
separator required. -/
def admitsImagePath (img_path : Str) : Bool :=
  SUPPORTED_IMAGE_FORMATS.any fun suffix => suffix.isSuffixOf img_path

/-- Mirror of the store-building loop of `App::default` (`main.rs` lines
790-810), as the code stands: the persistent backing `image_embeddings`
(opened at line 781) is never consulted — the cache check at line 792 is the
unfinished fragment `if image_embeddings.get()`, which does not parse — so
every scanned path is passed to `embed_image` unconditionally, and a failed
embed hits `.expect("Failed to embed image")`, i.e. the whole construction
panics.  The result is the in-memory map paired with the number of
`embed_image` invocations made before returning or panicking. -/
def build_image_embeddings {Emb : Type} (image_embeddings : List (Str × Emb))
    (embed_image : Str → Except Str Emb) :
    List Str → Except Str (List (Str × Emb)) × ℕ
  | [] => (.ok [], 0)
  | image :: rest =>
    match embed_image image with
    | .error _ => (.error "Failed to embed image".toList, 1)
    | .ok embedding =>
      match build_image_embeddings image_embeddings embed_image rest with
      | (.ok l, n) => (.ok ((image, embedding) :: l), n + 1)
      | (.error e, n) => (.error e, n + 1)

/-- Mirror of the size-modifier stripping inside `extract_image_urls`
(`google_photos.rs` lines 36-44): `url.find('=')` followed by
`url.truncate(idx)` keeps exactly the characters before the first `'='`
(and the whole string when there is none). -/
def canonical_url (url : Str) : Str := url.takeWhile fun c => c ≠ '='

/-- Mirror of `extract_image_urls` (`google_photos.rs` lines 31-48) from the
regex matches onward: each matched URL is canonicalised and inserted into a
`HashSet`, modelled as the finite set of canonical URLs. -/
def extract_image_urls (url_matches : List Str) : Finset Str :=
  (url_matches.map canonical_url).toFinset

/-- Mirror of the spinner thread of `App::search` (`main.rs` lines 547-565):
the inner `for` loop prints the 10 animation glyphs one per ~50ms frame,
polling the kill channel before each print; receiving the kill only sets
`running = false`, which is tested at the start of the next 10-frame cycle,
so the current cycle is always finished.  `spinner_total_from kill_at t`
gives the total number of frames printed from the cycle starting at frame
index `t`, when the kill signal becomes receivable at frame index
`kill_at`. -/
def spinner_total_from (kill_at t : ℕ) : ℕ :=
  if kill_at < t + 10 then t + 10 else spinner_total_from kill_at (t + 10)
termination_by kill_at - t
decreasing_by omega

/-- Number of further frames the spinner renders after the frame at which it
first observes the kill signal. -/
def frames_after_kill (kill_at : ℕ) : ℕ :=
  spinner_total_from kill_at 0 - (kill_at + 1)

/-- A screen rectangle (`ratatui::layout::Rect`), with its top-left corner
and extent in cells. -/
structure Rect where
  x : ℕ
  y : ℕ
  w : ℕ
  h : ℕ
deriving DecidableEq

/-- Membership of an integer screen cell in a rectangle. -/
def Rect.containsPt (r : Rect) (px py : ℕ) : Prop :=
  r.x ≤ px ∧ px < r.x + r.w ∧ r.y ≤ py ∧ py < r.y + r.h

instance (r : Rect) (px py : ℕ) : Decidable (r.containsPt px py) := by
  unfold Rect.containsPt; infer_instance

/-- Two rectangles are non-overlapping when no cell lies in both. -/
def Rect.DisjointR (a b : Rect) : Prop :=
  ∀ px py : ℕ, ¬ (a.containsPt px py ∧ b.containsPt px py)

/-- Containment of one rectangle in another. -/
def Rect.SubR (a b : Rect) : Prop :=
  ∀ px py : ℕ, a.containsPt px py → b.containsPt px py

/-- Horizontal split of a rectangle along the cut offsets `offs` (distances
from the rectangle's left edge): consecutive offsets `a, b` delimit one
column of width `b - a`.  This is how a spacer-free `Layout::horizontal`
split partitions its area, with the offsets computed from the constraint
list. -/
def sliceH : Rect → List ℕ → List Rect
  | r, a :: b :: rest => ⟨r.x + a, r.y, b - a, r.h⟩ :: sliceH r (b :: rest)
  | _, _ => []

/-- Vertical split of a rectangle along cut offsets from its top edge
(`Layout::vertical`). -/
def sliceV : Rect → List ℕ → List Rect
  | r, a :: b :: rest => ⟨r.x, r.y + a, r.w, b - a⟩ :: sliceV r (b :: rest)
  | _, _ => []

/-- Cut offsets of a `Constraint::Percentage` list: the running percentage
sums scaled onto `total` with integer division. -/
def cumOffsets (total : ℕ) : ℕ → List ℕ → List ℕ
  | acc, [] => [total * acc / 100]
  | acc, p :: ps => total * acc / 100 :: cumOffsets total (acc + p) ps

/-- Offsets for a percentage-constraint list starting at 0. -/
def pct_offsets (total : ℕ) (ps : List ℕ) : List ℕ := cumOffsets total 0 ps

/-- Cut offsets of `vec![Constraint::Ratio(1, n); n]`: `n` equal columns. -/
def ratio_offsets (total n : ℕ) : List ℕ :=
  (List.range (n + 1)).map fun i => total * i / n

/-- The degenerate rectangle produced by indexing a split list out of
range. -/
def emptyRect : Rect := ⟨0, 0, 0, 0⟩

/-- The row constraint list chosen for the right half (`main.rs` lines
214-224): one full row for up to 2 remaining results, two 50% rows for up to
5, three 33/33/34 rows beyond. -/
def r_constraints (remaining : ℕ) : List ℕ :=
  if remaining ≤ 2 then [100]
  else if remaining ≤ 5 then [50, 50]
  else [33, 33, 34]

/-- The right-half rows (`Layout::vertical(r_constraints).split(right_area)`,
line 226). -/
def grid_right_rows (right_area : Rect) (remaining : ℕ) : List Rect :=
  sliceV right_area (pct_offsets right_area.h (r_constraints remaining))

/-- One row split evenly into `k` cells
(`Layout::horizontal(vec![Constraint::Ratio(1, n); n])`, lines 232, 243,
251). -/
def grid_row_cells (row_rect : Rect) (k : ℕ) : List Rect :=
  sliceH row_rect (ratio_offsets row_rect.w k)

/-- Cell count of the first right-half row (`let n = if remaining <= 2 {
remaining } else { 2 }`, line 231). -/
def grid_n0 (remaining : ℕ) : ℕ := if remaining ≤ 2 then remaining else 2

/-- Cell count of the second right-half row (lines 238-241: `rem.min(limit)`
with `limit` equal to `rem` for at most 5 remaining and 3 beyond), 0 when
the row is not opened. -/
def grid_n1 (remaining : ℕ) : ℕ :=
  if remaining > grid_n0 remaining then
    min (remaining - grid_n0 remaining)
      (if remaining ≤ 5 then remaining - grid_n0 remaining else 3)
  else 0

/-- Mirror of the results-grid layout in `App::draw` (`main.rs` lines
198-255).  `results_len` is `search_results.len()`; the drawn count is
capped at 10 (line 198).  One result shows in the full image block; with
more, the left half is cell 0 and the right half is split into 1, 2 or 3
percentage rows, each row split evenly into the cells assigned to it by the
`r_idx` bookkeeping of lines 228-254. -/
def grid_areas_multi (img_block : Rect) (remaining : ℕ) : List Rect :=
  let main_split := sliceH img_block (pct_offsets img_block.w [50, 50])
  let cell0 := main_split.getD 0 emptyRect
  let right_area := main_split.getD 1 emptyRect
  let r_rows := grid_right_rows right_area remaining
  let n0 := grid_n0 remaining
  let row0 := grid_row_cells (r_rows.getD 0 emptyRect) n0
  let n1 := grid_n1 remaining
  let row1 :=
    if remaining > n0 then grid_row_cells (r_rows.getD 1 emptyRect) n1
    else []
  let row2 :=
    if remaining > n0 + n1 then
      grid_row_cells (r_rows.getD 2 emptyRect) (remaining - (n0 + n1))
    else []
  cell0 :: (row0 ++ row1 ++ row2)

/-- Entry point of the grid layout (`main.rs` lines 198-204): the drawn
count is `search_results.len().min(10)`; zero results draw nothing, one
takes the whole image block, more go through `grid_areas_multi` with
`remaining = results_count - 1`. -/
def draw_image_areas (img_block : Rect) (results_len : ℕ) : List Rect :=
  let results_count := min results_len 10
  if results_count = 0 then []
  else if results_count = 1 then [img_block]
  else grid_areas_multi img_block (results_count - 1)

instance {ε α : Type _} [DecidableEq ε] [DecidableEq α] : DecidableEq (Except ε α)
  | .error a, .error b =>
    if h : a = b then .isTrue (by rw [h]) else .isFalse (by simp [h])
  | .error _, .ok _ => .isFalse (by simp)
  | .ok _, .error _ => .isFalse (by simp)
  | .ok a, .ok b =>
    if h : a = b then .isTrue (by rw [h]) else .isFalse (by simp [h])

/-- Concrete model in which embedding the text `cat` fails and everything
else succeeds (query-embedding-failure scenarios). -/
def model_fail_cat : ClipModel ℕ :=
  ⟨fun s => if s = "cat".toList then .error "model error".toList else .ok 0,
   fun _ => .ok 0, fun _ _ => 0⟩

/-- Concrete embedder that fails on `images/a.jpg` and succeeds elsewhere
(per-file embed-failure scenarios for the store build). -/
def embed_fail_a : Str → Except Str ℕ :=
  fun s => if s = "images/a.jpg".toList then .error "decode error".toList else .ok 7

/-- Concrete model realising the spec's Ranking example: positive scores
(0.9, 0.5, 0.1) and negative scores (0.8, 0.1, 0.05) for the three stored
images 1, 2, 3. -/
def model_c4 : ClipModel ℕ :=
  ⟨fun s => if s = "pos".toList then .ok 100
            else if s = "neg".toList then .ok 101
            else .error "unknown".toList,
   fun _ => .ok 0,
   fun q v => if q = 100 then (if v = 1 then 9/10 else if v = 2 then 5/10 else 1/10)
              else (if v = 1 then 8/10 else if v = 2 then 1/10 else 1/20)⟩

/-- Store of the spec's Ranking example: images "1", "2", "3". -/
def store_c4 : List (Str × ℕ) :=
  [("1".toList, 1), ("2".toList, 2), ("3".toList, 3)]

/-- Degenerate model whose comparator is constantly 0, producing score ties
between every pair of candidates. -/
def model_const : ClipModel ℕ :=
  ⟨fun _ => .ok 0, fun _ => .ok 0, fun _ _ => 0⟩

/-- Two-image store used to exhibit tie behaviour. -/
def store_ties : List (Str × ℕ) := [("a".toList, 0), ("b".toList, 1)]

/-- A path is ranked before another in a result list when both occur among
the result paths and the first occurs strictly earlier. -/
def ranked_before (ranked : List (Str × ℚ)) (a b : Str) : Prop :=
  a ∈ ranked.map Prod.fst ∧ b ∈ ranked.map Prod.fst ∧
  (ranked.map Prod.fst).indexOf a < (ranked.map Prod.fst).indexOf b

instance (ranked : List (Str × ℚ)) (a b : Str) :
    Decidable (ranked_before ranked a b) := by
  unfold ranked_before; infer_instance

instance : IsTotal (Str × ℚ) (fun a b => a.2 ≥ b.2) :=
  ⟨fun a b => le_total b.2 a.2⟩

instance : IsTrans (Str × ℚ) (fun a b => a.2 ≥ b.2) :=
  ⟨fun _ _ _ h1 h2 => le_trans h2 h1⟩

instance : IsTotal (Str × ℚ) (fun a b => a.2 ≤ b.2) :=
  ⟨fun a b => le_total a.2 b.2⟩

instance : IsTrans (Str × ℚ) (fun a b => a.2 ≤ b.2) :=
  ⟨fun _ _ _ h1 h2 => le_trans h1 h2⟩

/-! ## Theorems -/

/-- Helper: the descending rank order is sorted by non-increasing score. -/
theorem rankDescending_sorted (l : List (Str × ℚ)) :
    List.Sorted (fun a b => a.2 ≥ b.2) (rankDescending l) :=
  List.sorted_insertionSort _ l

/-- Helper: the ascending rank order is sorted by non-decreasing score. -/
theorem rankAscending_sorted (l : List (Str × ℚ)) :
    List.Sorted (fun a b => a.2 ≤ b.2) (rankAscending l) :=
  List.sorted_insertionSort _ l

/-- Helper: descending ranking permutes its input. -/
theorem rankDescending_perm (l : List (Str × ℚ)) : List.Perm (rankDescending l) l :=
  List.perm_insertionSort _ l

/-- Helper: ascending ranking permutes its input. -/
theorem rankAscending_perm (l : List (Str × ℚ)) : List.Perm (rankAscending l) l :=
  List.perm_insertionSort _ l

/-- Helper: with duplicate-free keys (a `HashMap` iteration always is), the
second Ranking pass — which subtracts the negative score looked up by key —
computes per candidate exactly `f` minus `g` of its vector. -/
theorem ranking_second_pass {Emb : Type} [Inhabited Emb]
    (store : List (Str × Emb)) (hnd : (store.map Prod.fst).Nodup)
    (f g : Emb → ℚ) :
    ((store.map fun kv => (kv.1, f kv.2)).map fun e =>
        (e.1, e.2 - g ((store.lookup e.1).getD default)))
      = store.map fun kv => (kv.1, f kv.2 - g kv.2) := by
  induction store with
  | nil => rfl
  | cons kv rest ih =>
    obtain ⟨k, v⟩ := kv
    rw [List.map_cons, List.nodup_cons] at hnd
    simp only [List.map_cons]
    congr 1
    · simp
    · rw [← ih hnd.2]
      apply List.map_congr_left
      rintro ⟨k', s⟩ hmem
      have hk' : k' ∈ rest.map Prod.fst := by
        rcases List.mem_map.mp hmem with ⟨kv0, h0, heq⟩
        exact List.mem_map.mpr ⟨kv0, h0, congrArg Prod.fst heq⟩
      have hne : (k' == k) = false := by
        refine beq_eq_false_iff_ne.mpr fun hkk => hnd.1 ?_
        rw [← hkk]
        exact hk'
      simp [List.lookup_cons, hne]

/-- Helper: the scan filter accepts a path exactly when some allow-list
entry is a suffix of it. -/
theorem admitsImagePath_iff (p : Str) :
    admitsImagePath p = true ↔ ∃ s ∈ SUPPORTED_IMAGE_FORMATS, s <:+ p := by
  simp [admitsImagePath]

/-- Helper: a suffix of `xs ++ l` no longer than `l` is a suffix of `l`. -/
theorem suffix_of_append_right {s l : List Char} (xs : List Char)
    (h : s <:+ xs ++ l) (hlen : s.length ≤ l.length) : s <:+ l := by
  induction xs with
  | nil => exact h
  | cons x xs ih =>
    rcases List.suffix_cons_iff.mp h with heq | htail
    · have := congrArg List.length heq
      simp at this
      omega
    · exact ih htail

/-- Helper: no path ending in the four characters `.gif` passes the scan
filter, because the allow-list's GIF entry is `" gif"` with a leading
space. -/
theorem gif_not_admitted (stem : Str) :
    admitsImagePath (stem ++ ".gif".toList) = false := by
  rw [← Bool.not_eq_true, admitsImagePath_iff]
  rintro ⟨s, hs, hsuf⟩
  fin_cases hs <;>
    exact absurd (suffix_of_append_right stem hsuf (by decide)) (by decide)

/-- C10: the directory scan admits a file iff its path string ends, with no
dot separator required, with one of the literal allow-list entries; because
the GIF entry is the string " gif" with a leading space, no file named with
the ordinary ".gif" extension is ever admitted, while a filename merely
ending in the letters of an entry (such as "photojpg") is admitted. -/
theorem c10_allowlist_suffix_match :
    (∀ img_path : Str, admitsImagePath img_path = true ↔
        ∃ s ∈ SUPPORTED_IMAGE_FORMATS, s <:+ img_path) ∧
    (∀ stem : Str, admitsImagePath (stem ++ ".gif".toList) = false) ∧
    admitsImagePath "photojpg".toList = true :=
  ⟨admitsImagePath_iff, gif_not_admitted, by decide⟩

/-- C9: the scraper strips everything from the first `'='` of each matched
image URL, so the two size variants of the example collapse to the single
canonical URL and the deduplicated set has size 1. -/
theorem c9_canonical_url_dedup :
    canonical_url "https://host/abcDEF=w2048-h2048".toList = "https://host/abcDEF".toList ∧
    canonical_url "https://host/abcDEF=s512".toList = "https://host/abcDEF".toList ∧
    extract_image_urls
        ["https://host/abcDEF=w2048-h2048".toList, "https://host/abcDEF=s512".toList]
      = {"https://host/abcDEF".toList} ∧
    (extract_image_urls
        ["https://host/abcDEF=w2048-h2048".toList, "https://host/abcDEF=s512".toList]).card
      = 1 := by
  refine ⟨by decide, by decide, ?_, ?_⟩ <;> decide

/-- C1 (code bug): in Ranking mode, when embedding the positive half fails
while the negative half succeeds, `App::search` does not abort with a
notification — the `&&` test at line 643 passes both unwraps only when both
fail, so the `unwrap()` at line 653 panics: no notification is added and the
kill signal is never sent (the sender is dropped unfired). -/
theorem c1_ranking_single_failure_panics :
    (search model_fail_cat (some .Ranking) "cat-dog".toList []).panicked = true ∧
    (search model_fail_cat (some .Ranking) "cat-dog".toList []).kill_sent = false ∧
    (search model_fail_cat (some .Ranking) "cat-dog".toList []).notifications = [] := by
  decide

/-- C2 (code bug): the store-build loop invokes `embed_image` for a scanned
file even when the persistent backing already holds that exact path — the
backing is never consulted — so a second run over an unchanged directory
re-embeds everything rather than loading stored vectors. -/
theorem c2_backing_never_consulted {Emb : Type} (backing : List (Str × Emb)) (v : Emb) :
    (build_image_embeddings backing (fun _ => Except.ok v)
        ["images/img0.jpg".toList]).2 = 1 ∧
    (build_image_embeddings backing (fun _ => Except.ok v)
        ["images/img0.jpg".toList]).1 = Except.ok [("images/img0.jpg".toList, v)] :=
  ⟨rfl, rfl⟩

/-- C3: a Ranking query whose dash-split does not have exactly two parts
makes `App::search` return `None`: no ranking is produced and the caller
leaves the prior `search_results` unchanged. -/
theorem c3_malformed_ranking_query {Emb : Type} [Inhabited Emb]
    (model : ClipModel Emb) (query : Str) (store : List (Str × Emb))
    (prior : List (Str × ℚ)) (h : (splitDash query).length ≠ 2) :
    (search model (some .Ranking) query store).result = none ∧
    handle_search_enter prior (search model (some .Ranking) query store) = prior := by
  unfold search handle_search_enter
  simp [h]

/-- Witness for C3 at the one-part query "abc" (zero separators). -/
theorem c3_malformed_ranking_query_witness :
    (search model_const (some .Ranking) "abc".toList []).result = none ∧
    handle_search_enter [] (search model_const (some .Ranking) "abc".toList []) = [] :=
  c3_malformed_ranking_query model_const "abc".toList [] [] (by decide)

/-- Helper: the Ranking-mode success path, second pass folded in. -/
theorem search_ranking_ok {Emb : Type} [Inhabited Emb] (model : ClipModel Emb)
    (store : List (Str × Emb)) (query : Str) (pe ne2 : Emb)
    (hnd : (store.map Prod.fst).Nodup)
    (h2 : (splitDash query).length = 2)
    (hpos : model.embed_text ((splitDash query).getD 0 []) = .ok pe)
    (hneg : model.embed_text ((splitDash query).getD 1 []) = .ok ne2) :
    (search model (some .Ranking) query store).result
      = some (rankDescending (store.map fun kv =>
          (kv.1, model.embed_compare pe kv.2 - model.embed_compare ne2 kv.2))) := by
  have hcond : ¬ ((splitDash query).length ≠ 2) := by simp [h2]
  unfold search
  rw [if_neg hcond, hpos, hneg]
  dsimp only
  rw [ranking_second_pass store hnd
    (fun v => model.embed_compare pe v) (fun v => model.embed_compare ne2 v)]

/-- C4: in Ranking mode with both halves embedding successfully, each
candidate's score is compare(positive, candidate) minus compare(negative,
candidate) and the result is that scored list stably sorted descending; at
the spec's example (positive scores 0.9, 0.5, 0.1 and negative scores 0.8,
0.1, 0.05 for images 1, 2, 3) the combined scores are 0.1, 0.4, 0.05 and the
output order is 2, 1, 3. -/
theorem c4_ranking_combined_scores :
    (∀ (Emb : Type) (inst : Inhabited Emb) (model : ClipModel Emb)
        (store : List (Str × Emb)) (query : Str) (pe ne2 : Emb),
      (store.map Prod.fst).Nodup →
      (splitDash query).length = 2 →
      model.embed_text ((splitDash query).getD 0 []) = .ok pe →
      model.embed_text ((splitDash query).getD 1 []) = .ok ne2 →
      (@search Emb inst model (some .Ranking) query store).result
          = some (rankDescending (store.map fun kv =>
              (kv.1, model.embed_compare pe kv.2 - model.embed_compare ne2 kv.2))) ∧
        List.Perm
          (rankDescending (store.map fun kv =>
            (kv.1, model.embed_compare pe kv.2 - model.embed_compare ne2 kv.2)))
          (store.map fun kv =>
            (kv.1, model.embed_compare pe kv.2 - model.embed_compare ne2 kv.2)) ∧
        List.Sorted (fun a b => a.2 ≥ b.2)
          (rankDescending (store.map fun kv =>
            (kv.1, model.embed_compare pe kv.2 - model.embed_compare ne2 kv.2)))) ∧
    (search model_c4 (some .Ranking) "pos-neg".toList store_c4).result
      = some [("2".toList, 2/5), ("1".toList, 1/10), ("3".toList, 1/20)] := by
  constructor
  · intro Emb inst model store query pe ne2 hnd h2 hpos hneg
    exact ⟨search_ranking_ok model store query pe ne2 hnd h2 hpos hneg,
      rankDescending_perm _, rankDescending_sorted _⟩
  · rw [search_ranking_ok model_c4 store_c4 "pos-neg".toList 100 101
      (by decide) (by decide) (by decide) (by decide)]
    norm_num [store_c4, model_c4, rankDescending, List.insertionSort,
      List.orderedInsert]

/-- Witness for C4 at the spec's concrete Ranking example. -/
theorem c4_ranking_combined_scores_witness :
    (search model_c4 (some .Ranking) "pos-neg".toList store_c4).result
        = some (rankDescending (store_c4.map fun kv =>
            (kv.1, model_c4.embed_compare 100 kv.2 - model_c4.embed_compare 101 kv.2))) ∧
      List.Perm
        (rankDescending (store_c4.map fun kv =>
          (kv.1, model_c4.embed_compare 100 kv.2 - model_c4.embed_compare 101 kv.2)))
        (store_c4.map fun kv =>
          (kv.1, model_c4.embed_compare 100 kv.2 - model_c4.embed_compare 101 kv.2)) ∧
      List.Sorted (fun a b => a.2 ≥ b.2)
        (rankDescending (store_c4.map fun kv =>
          (kv.1, model_c4.embed_compare 100 kv.2 - model_c4.embed_compare 101 kv.2))) :=
  c4_ranking_combined_scores.1 ℕ ⟨0⟩ model_c4 store_c4 "pos-neg".toList 100 101
    (by decide) (by decide) (by decide) (by decide)

/-- C5 (counterexample): with a constant comparator the two stored images
tie, the stable sort keeps "a" before "b", and so "b" is not ranked before
"a" even though compare(q,"b") ≥ compare(q,"a") holds — the claimed
biconditional fails at ties. -/
theorem c5_counterexample_tie :
    ¬ (ranked_before
          (((search model_const (some .Search) "q".toList store_ties).result).getD [])
          "b".toList "a".toList ↔
        model_const.embed_compare 0 1 ≥ model_const.embed_compare 0 0) := by
  decide

/-- C5 (amended): in Positive mode an earlier-ranked entry's score is at
least a later one's, and a strictly larger score forces an earlier position
(the biconditional holds except at ties, where the store order is kept);
dually in Negative mode with ≤ and strictly smaller.  The rankings permute
the store scored by compare(query embedding, candidate). -/
theorem c5_amended_rank_order {Emb : Type} [Inhabited Emb]
    (model : ClipModel Emb) (query : Str) (store : List (Str × Emb)) (te : Emb)
    (hq : model.embed_text query = .ok te) :
    ∃ rp rn,
      (search model (some .Search) query store).result = some rp ∧
      (search model (some .NegativePrompt) query store).result = some rn ∧
      List.Perm rp (store.map fun kv => (kv.1, model.embed_compare te kv.2)) ∧
      List.Perm rn (store.map fun kv => (kv.1, model.embed_compare te kv.2)) ∧
      (∀ i j (hi : i < rp.length) (hj : j < rp.length), i < j →
        (rp.get ⟨i, hi⟩).2 ≥ (rp.get ⟨j, hj⟩).2) ∧
      (∀ i j (hi : i < rp.length) (hj : j < rp.length),
        (rp.get ⟨i, hi⟩).2 > (rp.get ⟨j, hj⟩).2 → i < j) ∧
      (∀ i j (hi : i < rn.length) (hj : j < rn.length), i < j →
        (rn.get ⟨i, hi⟩).2 ≤ (rn.get ⟨j, hj⟩).2) ∧
      (∀ i j (hi : i < rn.length) (hj : j < rn.length),
        (rn.get ⟨i, hi⟩).2 < (rn.get ⟨j, hj⟩).2 → i < j) := by
  refine ⟨rankDescending (store.map fun kv => (kv.1, model.embed_compare te kv.2)),
          rankAscending (store.map fun kv => (kv.1, model.embed_compare te kv.2)),
          ?_, ?_, rankDescending_perm _, rankAscending_perm _, ?_, ?_, ?_, ?_⟩
  · unfold search
    rw [hq]
  · unfold search
    rw [hq]
  · intro i j hi hj hij
    exact (rankDescending_sorted _).rel_get_of_lt hij
  · intro i j hi hj hgt
    by_contra hij
    rcases Nat.lt_or_ge j i with hji | hji
    · exact absurd hgt
        (not_lt.mpr ((rankDescending_sorted _).rel_get_of_lt hji))
    · have : j = i := by omega
      subst this
      exact lt_irrefl _ hgt
  · intro i j hi hj hij
    exact (rankAscending_sorted _).rel_get_of_lt hij
  · intro i j hi hj hlt
    by_contra hij
    rcases Nat.lt_or_ge j i with hji | hji
    · exact absurd hlt
        (not_lt.mpr ((rankAscending_sorted _).rel_get_of_lt hji))
    · have : j = i := by omega
      subst this
      exact lt_irrefl _ hlt

/-- Witness for C5 (amended) at the constant-comparator model and the
two-image store. -/
theorem c5_amended_rank_order_witness :
    ∃ rp rn,
      (search model_const (some .Search) "q".toList store_ties).result = some rp ∧
      (search model_const (some .NegativePrompt) "q".toList store_ties).result = some rn ∧
      List.Perm rp (store_ties.map fun kv => (kv.1, model_const.embed_compare 0 kv.2)) ∧
      List.Perm rn (store_ties.map fun kv => (kv.1, model_const.embed_compare 0 kv.2)) ∧
      (∀ i j (hi : i < rp.length) (hj : j < rp.length), i < j →
        (rp.get ⟨i, hi⟩).2 ≥ (rp.get ⟨j, hj⟩).2) ∧
      (∀ i j (hi : i < rp.length) (hj : j < rp.length),
        (rp.get ⟨i, hi⟩).2 > (rp.get ⟨j, hj⟩).2 → i < j) ∧
      (∀ i j (hi : i < rn.length) (hj : j < rn.length), i < j →
        (rn.get ⟨i, hi⟩).2 ≤ (rn.get ⟨j, hj⟩).2) ∧
      (∀ i j (hi : i < rn.length) (hj : j < rn.length),
        (rn.get ⟨i, hi⟩).2 < (rn.get ⟨j, hj⟩).2 → i < j) :=
  c5_amended_rank_order model_const "q".toList store_ties 0 (by decide)

/-- C6 (counterexample): a failing embed during the store build is fatal,
not a skip — with `images/a.jpg` failing, construction stops at the
`.expect("Failed to embed image")` panic after a single `embed_image` call,
so `images/b.jpg` is never processed. -/
theorem c6_counterexample_failure_is_fatal :
    (build_image_embeddings ([] : List (Str × ℕ)) embed_fail_a
        ["images/a.jpg".toList, "images/b.jpg".toList]).1
      = Except.error "Failed to embed image".toList ∧
    (build_image_embeddings ([] : List (Str × ℕ)) embed_fail_a
        ["images/a.jpg".toList, "images/b.jpg".toList]).2 = 1 := by
  decide

/-- C6 (amended): a failure to embed a single image aborts store
construction at that file with the panic message "Failed to embed image";
files before it are embedded, files after it are never processed, and no
record is produced. -/
theorem c6_amended_failure_aborts_build {Emb : Type}
    (backing : List (Str × Emb)) (embed_image : Str → Except Str Emb)
    (pre post : List Str) (p e : Str)
    (hpre : ∀ q ∈ pre, ∃ v, embed_image q = .ok v)
    (hp : embed_image p = .error e) :
    (build_image_embeddings backing embed_image (pre ++ p :: post)).1
      = Except.error "Failed to embed image".toList ∧
    (build_image_embeddings backing embed_image (pre ++ p :: post)).2
      = pre.length + 1 := by
  induction pre with
  | nil => simp [build_image_embeddings, hp]
  | cons q qs ih =>
    obtain ⟨v, hv⟩ := hpre q (by simp)
    have ih2 := ih fun q' hq' => hpre q' (by simp [hq'])
    rcases h1 : build_image_embeddings backing embed_image (qs ++ p :: post) with ⟨r, n⟩
    rw [h1] at ih2
    obtain ⟨ih2a, ih2b⟩ := ih2
    simp only at ih2a ih2b
    subst ih2a ih2b
    simp [build_image_embeddings, hv, h1]

/-- Witness for C6 (amended): `images/b.jpg` embeds, `images/a.jpg` fails,
`images/c.jpg` is never reached; two `embed_image` calls in total. -/
theorem c6_amended_witness :
    (build_image_embeddings ([] : List (Str × ℕ)) embed_fail_a
        ["images/b.jpg".toList, "images/a.jpg".toList, "images/c.jpg".toList]).1
      = Except.error "Failed to embed image".toList ∧
    (build_image_embeddings ([] : List (Str × ℕ)) embed_fail_a
        ["images/b.jpg".toList, "images/a.jpg".toList, "images/c.jpg".toList]).2 = 2 :=
  c6_amended_failure_aborts_build [] embed_fail_a
    ["images/b.jpg".toList] ["images/c.jpg".toList]
    "images/a.jpg".toList "decode error".toList
    (fun q hq => by
      obtain rfl := List.mem_singleton.mp hq
      exact ⟨7, by decide⟩)
    (by decide)

/-- Helper: the kill signal is sent on every non-panicking exit path of
`App::search` (success, query-embedding failure in Search, Negative and
Image-to-Image modes, both-halves failure and malformed query in Ranking
mode). -/
theorem search_kill_sent {Emb : Type} [Inhabited Emb] (model : ClipModel Emb)
    (mode : Option SearchEnum) (query : Str) (store : List (Str × Emb))
    (h : (search model mode query store).panicked = false) :
    (search model mode query store).kill_sent = true := by
  rcases mode with _ | m
  · rfl
  · cases m
    case Search =>
      cases he : model.embed_text query <;> simp [search, he]
    case NegativePrompt =>
      cases he : model.embed_text query <;> simp [search, he]
    case Ranking =>
      by_cases hl : (splitDash query).length ≠ 2
      · simp [search, hl]
      · cases hp : model.embed_text ((splitDash query).getD 0 []) <;>
          cases hn : model.embed_text ((splitDash query).getD 1 []) <;>
          simp_all [search, hl, hp, hn]
    case Image2Image =>
      cases he : model.embed_image query <;> simp [search, he]

/-- Helper: the spinner stops no later than the end of the 10-frame
animation cycle in which it observes the kill signal. -/
theorem spinner_total_from_le (kill_at t : ℕ) (ht : t ≤ kill_at) :
    spinner_total_from kill_at t ≤ kill_at + 10 := by
  have H : ∀ n t, kill_at - t ≤ n → t ≤ kill_at →
      spinner_total_from kill_at t ≤ kill_at + 10 := by
    intro n
    induction n with
    | zero =>
      intro t h1 h2
      unfold spinner_total_from
      rw [if_pos (by omega)]
      omega
    | succ n ih =>
      intro t h1 h2
      unfold spinner_total_from
      by_cases hc : kill_at < t + 10
      · rw [if_pos hc]; omega
      · rw [if_neg hc]
        exact ih (t + 10) (by omega) (by omega)
  exact H kill_at t (by omega) ht

/-- Helper: at most 9 further frames are rendered after the spinner first
observes the kill signal. -/
theorem frames_after_kill_le (kill_at : ℕ) : frames_after_kill kill_at ≤ 9 := by
  have h := spinner_total_from_le kill_at 0 (Nat.zero_le _)
  unfold frames_after_kill
  omega

/-- C8 (counterexample): the indicator does not stop within one frame period
of being signaled — the kill received at the first frame of a cycle only
clears `running`, and the remaining 9 frames of the `for` loop over the
animation glyphs are still rendered. -/
theorem c8_counterexample_not_one_frame : ¬ (frames_after_kill 0 ≤ 1) := by
  have h0 : spinner_total_from 0 0 = 10 := by
    unfold spinner_total_from
    rw [if_pos (by omega)]
  unfold frames_after_kill
  omega

/-- C8 (amended): on every non-panicking exit path of the search (success,
query-embedding failure, malformed Ranking query) the one-shot kill signal
is sent before the operation returns, and the indicator, which polls the
signal every ~50ms frame but acts on it only at the end of its 10-glyph
animation cycle, stops within at most 10 frame periods — not one — of being
signaled. -/
theorem c8_amended_kill_and_cycle_stop :
    (∀ (Emb : Type) (inst : Inhabited Emb) (model : ClipModel Emb)
        (mode : Option SearchEnum) (query : Str) (store : List (Str × Emb)),
      (@search Emb inst model mode query store).panicked = false →
      (@search Emb inst model mode query store).kill_sent = true) ∧
    (∀ kill_at : ℕ, frames_after_kill kill_at ≤ 9) :=
  ⟨fun _ inst model mode query store h =>
      @search_kill_sent _ inst model mode query store h,
   frames_after_kill_le⟩

/-- Witness for C8 (amended): a successful no-mode search sends the kill
signal, and a kill at frame 5 stops the spinner within the cycle. -/
theorem c8_amended_witness :
    (search model_const none "".toList []).kill_sent = true ∧
    frames_after_kill 5 ≤ 9 :=
  ⟨c8_amended_kill_and_cycle_stop.1 ℕ ⟨0⟩ model_const none "".toList [] rfl,
   c8_amended_kill_and_cycle_stop.2 5⟩

/-- Helper: a rectangle lying left of another is disjoint from it. -/
theorem disjoint_of_x_le {a b : Rect} (h : a.x + a.w ≤ b.x) : a.DisjointR b := by
  rintro px py ⟨ha, hb⟩
  unfold Rect.containsPt at ha hb
  omega

/-- Helper: a rectangle lying above another is disjoint from it. -/
theorem disjoint_of_y_le {a b : Rect} (h : a.y + a.h ≤ b.y) : a.DisjointR b := by
  rintro px py ⟨ha, hb⟩
  unfold Rect.containsPt at ha hb
  omega

/-- Helper: the empty rectangle is disjoint from everything on the right. -/
theorem disjoint_empty_right (a : Rect) : a.DisjointR emptyRect := by
  rintro px py ⟨_, hb⟩
  simp only [Rect.containsPt, emptyRect] at hb
  omega

/-- Helper: the empty rectangle is contained in everything. -/
theorem empty_subr (b : Rect) : emptyRect.SubR b := by
  rintro px py ha
  simp only [Rect.containsPt, emptyRect] at ha
  omega

/-- Helper: containment is reflexive. -/
theorem subr_refl (a : Rect) : a.SubR a := fun _ _ h => h

/-- Helper: containment is transitive. -/
theorem subr_trans {a b c : Rect} (h1 : a.SubR b) (h2 : b.SubR c) : a.SubR c :=
  fun px py h => h2 px py (h1 px py h)

/-- Helper: disjointness is antitone in both arguments. -/
theorem disjoint_mono {a b a' b' : Rect} (ha : a'.SubR a) (hb : b'.SubR b)
    (h : a.DisjointR b) : a'.DisjointR b' :=
  fun px py hc => h px py ⟨ha px py hc.1, hb px py hc.2⟩

/-- Helper: every piece of a horizontal slice starts at or right of the cut
that opens it. -/
theorem sliceH_x_lb (r : Rect) :
    ∀ (b : ℕ) (rest : List ℕ), (b :: rest).Chain' (· ≤ ·) →
      ∀ p ∈ sliceH r (b :: rest), r.x + b ≤ p.x := by
  intro b rest
  induction rest generalizing b with
  | nil => intro _ p hp; simp [sliceH] at hp
  | cons c rest ih =>
    intro hch p hp
    have hbc : b ≤ c := (List.chain'_cons.mp hch).1
    have htail : (c :: rest).Chain' (· ≤ ·) := (List.chain'_cons.mp hch).2
    rw [sliceH] at hp
    rcases List.mem_cons.mp hp with rfl | hp
    · dsimp
      omega
    · have := ih c htail p hp
      omega

/-- Helper: every piece of a vertical slice starts at or below the cut that
opens it. -/
theorem sliceV_y_lb (r : Rect) :
    ∀ (b : ℕ) (rest : List ℕ), (b :: rest).Chain' (· ≤ ·) →
      ∀ p ∈ sliceV r (b :: rest), r.y + b ≤ p.y := by
  intro b rest
  induction rest generalizing b with
  | nil => intro _ p hp; simp [sliceV] at hp
  | cons c rest ih =>
    intro hch p hp
    have hbc : b ≤ c := (List.chain'_cons.mp hch).1
    have htail : (c :: rest).Chain' (· ≤ ·) := (List.chain'_cons.mp hch).2
    rw [sliceV] at hp
    rcases List.mem_cons.mp hp with rfl | hp
    · dsimp
      omega
    · have := ih c htail p hp
      omega

/-- Helper: the pieces of a horizontal slice along nondecreasing cuts are
pairwise disjoint. -/
theorem sliceH_pairwise (r : Rect) :
    ∀ offs : List ℕ, offs.Chain' (· ≤ ·) →
      (sliceH r offs).Pairwise Rect.DisjointR := by
  intro offs
  induction offs with
  | nil => intro _; simp [sliceH]
  | cons a tail ih =>
    cases tail with
    | nil => intro _; simp [sliceH]
    | cons b rest =>
      intro hch
      have hab : a ≤ b := (List.chain'_cons.mp hch).1
      have htail : (b :: rest).Chain' (· ≤ ·) := (List.chain'_cons.mp hch).2
      rw [sliceH, List.pairwise_cons]
      refine ⟨fun p hp => ?_, ih htail⟩
      have hlb := sliceH_x_lb r b rest htail p hp
      exact disjoint_of_x_le (by dsimp; omega)

/-- Helper: the pieces of a vertical slice along nondecreasing cuts are
pairwise disjoint. -/
theorem sliceV_pairwise (r : Rect) :
    ∀ offs : List ℕ, offs.Chain' (· ≤ ·) →
      (sliceV r offs).Pairwise Rect.DisjointR := by
  intro offs
  induction offs with
  | nil => intro _; simp [sliceV]
  | cons a tail ih =>
    cases tail with
    | nil => intro _; simp [sliceV]
    | cons b rest =>
      intro hch
      have hab : a ≤ b := (List.chain'_cons.mp hch).1
      have htail : (b :: rest).Chain' (· ≤ ·) := (List.chain'_cons.mp hch).2
      rw [sliceV, List.pairwise_cons]
      refine ⟨fun p hp => ?_, ih htail⟩
      have hlb := sliceV_y_lb r b rest htail p hp
      exact disjoint_of_y_le (by dsimp; omega)

/-- Helper: with cuts bounded by the width, every horizontal piece is
contained in the sliced rectangle. -/
theorem sliceH_subr (r : Rect) :
    ∀ offs : List ℕ, (∀ o ∈ offs, o ≤ r.w) →
      ∀ p ∈ sliceH r offs, p.SubR r := by
  intro offs
  induction offs with
  | nil => intro _ p hp; simp [sliceH] at hp
  | cons a tail ih =>
    cases tail with
    | nil => intro _ p hp; simp [sliceH] at hp
    | cons b rest =>
      intro hb p hp
      rw [sliceH] at hp
      rcases List.mem_cons.mp hp with rfl | hp
      · have ha' : a ≤ r.w := hb a (by simp)
        have hb' : b ≤ r.w := hb b (by simp)
        rintro px py hc
        unfold Rect.containsPt at hc ⊢
        dsimp at hc
        omega
      · exact ih (fun o ho => hb o (by simp [ho])) p hp

/-- Helper: with cuts bounded by the height, every vertical piece is
contained in the sliced rectangle. -/
theorem sliceV_subr (r : Rect) :
    ∀ offs : List ℕ, (∀ o ∈ offs, o ≤ r.h) →
      ∀ p ∈ sliceV r offs, p.SubR r := by
  intro offs
  induction offs with
  | nil => intro _ p hp; simp [sliceV] at hp
  | cons a tail ih =>
    cases tail with
    | nil => intro _ p hp; simp [sliceV] at hp
    | cons b rest =>
      intro hb p hp
      rw [sliceV] at hp
      rcases List.mem_cons.mp hp with rfl | hp
      · have ha' : a ≤ r.h := hb a (by simp)
        have hb' : b ≤ r.h := hb b (by simp)
        rintro px py hc
        unfold Rect.containsPt at hc ⊢
        dsimp at hc
        omega
      · exact ih (fun o ho => hb o (by simp [ho])) p hp

/-- Helper: percentage cut offsets are nondecreasing. -/
theorem cumOffsets_chain (total : ℕ) :
    ∀ (ps : List ℕ) (acc : ℕ), (cumOffsets total acc ps).Chain' (· ≤ ·) := by
  intro ps
  induction ps with
  | nil => intro acc; simp [cumOffsets]
  | cons p ps ih =>
    intro acc
    rw [cumOffsets, List.chain'_cons']
    refine ⟨fun y hy => ?_, ih (acc + p)⟩
    have hh : (cumOffsets total (acc + p) ps).head? = some (total * (acc + p) / 100) := by
      cases ps <;> rfl
    rw [hh, Option.mem_some_iff] at hy
    subst hy
    exact Nat.div_le_div_right (Nat.mul_le_mul_left total (by omega))

/-- Helper: with percentages summing to at most 100, every cut offset is at
most the total. -/
theorem cumOffsets_le (total : ℕ) :
    ∀ (ps : List ℕ) (acc : ℕ), acc + ps.sum ≤ 100 →
      ∀ o ∈ cumOffsets total acc ps, o ≤ total := by
  intro ps
  induction ps with
  | nil =>
    intro acc h o ho
    simp [cumOffsets] at ho
    subst ho
    calc total * acc / 100 ≤ total * 100 / 100 :=
          Nat.div_le_div_right (Nat.mul_le_mul_left total (by simpa using h))
      _ = total := Nat.mul_div_cancel total (by omega)
  | cons p ps ih =>
    intro acc h o ho
    rw [cumOffsets] at ho
    rcases List.mem_cons.mp ho with rfl | ho
    · calc total * acc / 100 ≤ total * 100 / 100 :=
            Nat.div_le_div_right (Nat.mul_le_mul_left total (by simp at h; omega))
        _ = total := Nat.mul_div_cancel total (by omega)
    · exact ih (acc + p) (by simp at h ⊢; omega) o ho

/-- Helper: ratio cut offsets are nondecreasing. -/
theorem ratio_offsets_chain (total n : ℕ) :
    (ratio_offsets total n).Chain' (· ≤ ·) := by
  rw [List.chain'_iff_get]
  intro i hi
  simp only [ratio_offsets, List.get_eq_getElem, List.getElem_map,
    List.getElem_range]
  exact Nat.div_le_div_right (Nat.mul_le_mul_left total (by omega))

/-- Helper: every ratio cut offset is at most the total. -/
theorem ratio_offsets_le (total n : ℕ) :
    ∀ o ∈ ratio_offsets total n, o ≤ total := by
  intro o ho
  simp only [ratio_offsets, List.mem_map, List.mem_range] at ho
  obtain ⟨i, hi, rfl⟩ := ho
  cases n with
  | zero => simp
  | succ m =>
    calc total * i / (m + 1) ≤ total * (m + 1) / (m + 1) :=
          Nat.div_le_div_right (Nat.mul_le_mul_left total (by omega))
      _ = total := Nat.mul_div_cancel total (by omega)

/-- Helper: indexing a split with a default either hits a member or the
default. -/
theorem getD_mem_or (l : List Rect) (i : ℕ) :
    l.getD i emptyRect ∈ l ∨ l.getD i emptyRect = emptyRect := by
  by_cases h : i < l.length
  · left
    rw [List.getD_eq_getElem l emptyRect h]
    exact List.getElem_mem h
  · right
    rw [List.getD_eq_getElem?_getD, List.getElem?_eq_none (by omega)]
    rfl

/-- Helper: two distinct default-indexed entries of a pairwise-disjoint list
are disjoint. -/
theorem getD_disjoint (l : List Rect) (hl : l.Pairwise Rect.DisjointR)
    (i j : ℕ) (hij : i < j) :
    (l.getD i emptyRect).DisjointR (l.getD j emptyRect) := by
  by_cases hj : j < l.length
  · have hi : i < l.length := by omega
    rw [List.getD_eq_getElem l emptyRect hi, List.getD_eq_getElem l emptyRect hj]
    exact List.pairwise_iff_getElem.mp hl i j hi hj hij
  · have hj' : l.getD j emptyRect = emptyRect := by
      rw [List.getD_eq_getElem?_getD, List.getElem?_eq_none (by omega)]
      rfl
    rw [hj']
    exact disjoint_empty_right _

/-- Helper: the percentage rows always sum to at most 100. -/
theorem r_constraints_sum_le (remaining : ℕ) : (r_constraints remaining).sum ≤ 100 := by
  unfold r_constraints
  split
  · simp
  · split <;> simp

/-- Helper: the right-half rows are pairwise disjoint. -/
theorem grid_right_rows_pairwise (right : Rect) (rem : ℕ) :
    (grid_right_rows right rem).Pairwise Rect.DisjointR := by
  unfold grid_right_rows pct_offsets
  exact sliceV_pairwise _ _ (cumOffsets_chain _ _ _)

/-- Helper: every right-half row is contained in the right half. -/
theorem grid_right_rows_subr (right : Rect) (rem : ℕ) :
    ∀ row ∈ grid_right_rows right rem, row.SubR right := by
  unfold grid_right_rows pct_offsets
  exact sliceV_subr _ _
    (cumOffsets_le right.h _ 0 (by simpa using r_constraints_sum_le rem))

/-- Helper: the default-indexed row rectangle is contained in the right
half. -/
theorem grid_row_rect_subr (right : Rect) (rem i : ℕ) :
    ((grid_right_rows right rem).getD i emptyRect).SubR right := by
  rcases getD_mem_or (grid_right_rows right rem) i with h | h
  · exact grid_right_rows_subr right rem _ h
  · rw [h]; exact empty_subr right

/-- Helper: the cells of one row are pairwise disjoint. -/
theorem grid_row_cells_pairwise (rect : Rect) (k : ℕ) :
    (grid_row_cells rect k).Pairwise Rect.DisjointR := by
  unfold grid_row_cells
  exact sliceH_pairwise _ _ (ratio_offsets_chain _ _)

/-- Helper: every cell of a row is contained in the row. -/
theorem grid_row_cells_subr (rect : Rect) (k : ℕ) :
    ∀ c ∈ grid_row_cells rect k, c.SubR rect := by
  unfold grid_row_cells
  exact sliceH_subr _ _ (ratio_offsets_le _ _)

/-- Helper: cells of two disjoint containers are pairwise disjoint. -/
theorem cross_disjoint {a b : Rect} {l1 l2 : List Rect}
    (h1 : ∀ c ∈ l1, c.SubR a) (h2 : ∀ c ∈ l2, c.SubR b)
    (hab : a.DisjointR b) : ∀ c1 ∈ l1, ∀ c2 ∈ l2, c1.DisjointR c2 :=
  fun c1 m1 c2 m2 => disjoint_mono (h1 c1 m1) (h2 c2 m2) hab

/-- Helper: the multi-result grid is pairwise non-overlapping: the left half
is disjoint from the right half, the rows partition the right half, and each
row's cells partition the row. -/
theorem grid_areas_multi_pairwise (img : Rect) (remaining : ℕ) :
    (grid_areas_multi img remaining).Pairwise Rect.DisjointR := by
  have hmsp : (sliceH img (pct_offsets img.w [50, 50])).Pairwise Rect.DisjointR :=
    sliceH_pairwise _ _ (cumOffsets_chain _ _ _)
  simp only [grid_areas_multi]
  set ms := sliceH img (pct_offsets img.w [50, 50]) with hms
  set A := ms.getD 0 emptyRect with hA
  set B := ms.getD 1 emptyRect with hB
  have h01 : A.DisjointR B := getD_disjoint ms hmsp 0 1 (by omega)
  set rows := grid_right_rows B remaining with hrows
  have hrowsub : ∀ i, (rows.getD i emptyRect).SubR B := fun i =>
    grid_row_rect_subr B remaining i
  have hrowspw : rows.Pairwise Rect.DisjointR := grid_right_rows_pairwise B remaining
  have hd01 : (rows.getD 0 emptyRect).DisjointR (rows.getD 1 emptyRect) :=
    getD_disjoint rows hrowspw 0 1 (by omega)
  have hd02 : (rows.getD 0 emptyRect).DisjointR (rows.getD 2 emptyRect) :=
    getD_disjoint rows hrowspw 0 2 (by omega)
  have hd12 : (rows.getD 1 emptyRect).DisjointR (rows.getD 2 emptyRect) :=
    getD_disjoint rows hrowspw 1 2 (by omega)
  set R0 := grid_row_cells (rows.getD 0 emptyRect) (grid_n0 remaining) with hR0
  set R1 := if remaining > grid_n0 remaining then
      grid_row_cells (rows.getD 1 emptyRect) (grid_n1 remaining)
    else [] with hR1
  set R2 := if remaining > grid_n0 remaining + grid_n1 remaining then
      grid_row_cells (rows.getD 2 emptyRect)
        (remaining - (grid_n0 remaining + grid_n1 remaining))
    else [] with hR2
  have hR0sub : ∀ c ∈ R0, c.SubR (rows.getD 0 emptyRect) := by
    rw [hR0]; exact grid_row_cells_subr _ _
  have hR1sub : ∀ c ∈ R1, c.SubR (rows.getD 1 emptyRect) := by
    rw [hR1]
    split
    · exact grid_row_cells_subr _ _
    · intro c hc; simp at hc
  have hR2sub : ∀ c ∈ R2, c.SubR (rows.getD 2 emptyRect) := by
    rw [hR2]
    split
    · exact grid_row_cells_subr _ _
    · intro c hc; simp at hc
  have hR0pw : R0.Pairwise Rect.DisjointR := by
    rw [hR0]; exact grid_row_cells_pairwise _ _
  have hR1pw : R1.Pairwise Rect.DisjointR := by
    rw [hR1]
    split
    · exact grid_row_cells_pairwise _ _
    · simp
  have hR2pw : R2.Pairwise Rect.DisjointR := by
    rw [hR2]
    split
    · exact grid_row_cells_pairwise _ _
    · simp
  rw [List.pairwise_cons]
  constructor
  · intro c hc
    have hcB : c.SubR B := by
      rcases List.mem_append.mp hc with h | h
      · rcases List.mem_append.mp h with h | h
        · exact subr_trans (hR0sub c h) (hrowsub 0)
        · exact subr_trans (hR1sub c h) (hrowsub 1)
      · exact subr_trans (hR2sub c h) (hrowsub 2)
    exact disjoint_mono (subr_refl A) hcB h01
  · rw [List.pairwise_append]
    refine ⟨?_, hR2pw, ?_⟩
    · rw [List.pairwise_append]
      exact ⟨hR0pw, hR1pw, cross_disjoint hR0sub hR1sub hd01⟩
    · intro a ha b hb
      rcases List.mem_append.mp ha with h | h
      · exact cross_disjoint hR0sub hR2sub hd02 a h b hb
      · exact cross_disjoint hR1sub hR2sub hd12 a h b hb

/-- Helper: the layout never produces overlapping regions, for any result
count. -/
theorem draw_image_areas_pairwise (img : Rect) (n : ℕ) :
    (draw_image_areas img n).Pairwise Rect.DisjointR := by
  unfold draw_image_areas
  by_cases h0 : min n 10 = 0
  · simp [h0]
  · by_cases h1 : min n 10 = 1
    · simp [h0, h1]
    · simp only [h0, h1, if_false]
      exact grid_areas_multi_pairwise img _

/-- Helper: a horizontal slice has one piece fewer than it has cuts. -/
theorem sliceH_length (r : Rect) :
    ∀ offs : List ℕ, (sliceH r offs).length = offs.length - 1
  | [] => by simp [sliceH]
  | [a] => by simp [sliceH]
  | a :: b :: rest => by
    rw [sliceH, List.length_cons, sliceH_length r (b :: rest)]
    simp

/-- Helper: `n` ratio constraints give `n + 1` cuts. -/
theorem ratio_offsets_length (total n : ℕ) :
    (ratio_offsets total n).length = n + 1 := by
  simp [ratio_offsets]

/-- Helper: a row asked for `k` cells yields `k` cells. -/
theorem grid_row_cells_length (rect : Rect) (k : ℕ) :
    (grid_row_cells rect k).length = k := by
  unfold grid_row_cells
  rw [sliceH_length, ratio_offsets_length]
  omega

/-- Helper: the layout yields exactly `N` regions for `1 ≤ N ≤ 10`. -/
theorem draw_image_areas_length (img : Rect) (N : ℕ) (h1 : 1 ≤ N) (h2 : N ≤ 10) :
    (draw_image_areas img N).length = N := by
  interval_cases N <;>
    norm_num [draw_image_areas, grid_areas_multi, grid_row_cells_length,
      grid_n0, grid_n1]

/-- C7 (counterexample): for three results the right half is split
side-by-side into two quarter-width full-height cells, not into stacked
right-top and right-bottom halves as claimed. -/
theorem c7_counterexample_right_half_not_stacked :
    draw_image_areas ⟨0, 0, 100, 100⟩ 3
        = [⟨0, 0, 50, 100⟩, ⟨50, 0, 25, 100⟩, ⟨75, 0, 25, 100⟩] ∧
    draw_image_areas ⟨0, 0, 100, 100⟩ 3
        ≠ [⟨0, 0, 50, 100⟩, ⟨50, 0, 50, 50⟩, ⟨50, 50, 50, 50⟩] := by
  decide

/-- C7 (amended): for every result count N with 1 ≤ N ≤ 10 the layout
yields exactly N pairwise non-overlapping regions; N = 1 gives the single
full cell; for N ≥ 2 the left half is cell 0 and the remaining N - 1 cells
fill at most three rows of the right half in row order — and N = 3 places
the two right cells side by side (right-left and right-right quarters), not
stacked top/bottom. -/
theorem c7_amended_grid_partition (img : Rect) (N : ℕ) (h1 : 1 ≤ N) (h2 : N ≤ 10) :
    (draw_image_areas img N).length = N ∧
    (draw_image_areas img N).Pairwise Rect.DisjointR ∧
    draw_image_areas img 1 = [img] ∧
    draw_image_areas ⟨0, 0, 100, 100⟩ 3
      = [⟨0, 0, 50, 100⟩, ⟨50, 0, 25, 100⟩, ⟨75, 0, 25, 100⟩] :=
  ⟨draw_image_areas_length img N h1 h2, draw_image_areas_pairwise img N,
   by norm_num [draw_image_areas], by decide⟩

/-- Witness for C7 (amended) at a concrete 80x60 block with 7 results. -/
theorem c7_amended_grid_partition_witness :
    (draw_image_areas ⟨0, 0, 80, 60⟩ 7).length = 7 ∧
    (draw_image_areas ⟨0, 0, 80, 60⟩ 7).Pairwise Rect.DisjointR ∧
    draw_image_areas ⟨0, 0, 80, 60⟩ 1 = [⟨0, 0, 80, 60⟩] ∧
    draw_image_areas ⟨0, 0, 100, 100⟩ 3
      = [⟨0, 0, 50, 100⟩, ⟨50, 0, 25, 100⟩, ⟨75, 0, 25, 100⟩] :=
  c7_amended_grid_partition ⟨0, 0, 80, 60⟩ 7 (by omega) (by omega)

end Findimg
